import Mathlib

/-!
Verification of `log_models.py`, a small pipeline that builds a product
archive by matching image filenames against a CSV lookup table.

The Python code is shallowly embedded: strings are modelled as `List Char`
(written `Str`), the parsed reference CSV file as an optional
header/row structure (`Option CSVData`, `none` meaning the file does not
exist), the directory walk as the list of file names it yields, and the
output file as the encoded character content that would be written.
Python's `str.isalpha` / `str.isdigit` / `str.lower` are modelled on their
ASCII fragment, which is the fragment the identifiers and extensions
involved here use.
-/

/-- Strings of the embedded program: lists of characters. -/
abbrev Str := List Char

/-- Model of Python `str.strip` (no arguments): remove leading and trailing
whitespace. -/
def pyStrip (s : Str) : Str :=
  ((s.dropWhile Char.isWhitespace).reverse.dropWhile Char.isWhitespace).reverse

/-- Model of Python `str.lower` on its ASCII fragment. -/
def pyLower (s : Str) : Str := s.map Char.toLower

/-- Model of Python `str.isalpha` (ASCII fragment): nonempty and all
alphabetic. -/
def pyIsAlpha (s : Str) : Bool := !s.isEmpty && s.all Char.isAlpha

/-- Model of Python `str.isdigit` (ASCII fragment): nonempty and all
digits. -/
def pyIsDigit (s : Str) : Bool := !s.isEmpty && s.all Char.isDigit

/-- Model of `os.path.basename` on POSIX paths: the part after the last
slash. -/
def basename (p : Str) : Str :=
  (p.reverse.takeWhile (fun c => c ≠ '/')).reverse

/-- Model of `os.path.splitext(name)[1]` for a bare file name (no slash):
the extension starting at the last dot, empty when there is no dot or when
every character before the last dot is itself a dot (leading dots do not
begin an extension). -/
def splitextExt (name : Str) : Str :=
  let revAfter := name.reverse.takeWhile (fun c => c ≠ '.')
  if revAfter.length = name.length then []
  else
    let stem := name.take (name.length - revAfter.length - 1)
    if stem.all (fun c => c = '.') then [] else '.' :: revAfter.reverse

/-- Embedding of `parse_identifier` from `log_models.py`: take the final
path segment, require an underscore, take the part before the first
underscore, and accept it exactly when it is 10 characters with a dash at
index 6, an alphabetic 2-character prefix, a 4-digit series and a 3-digit
colour code; return it unchanged on success and `none` otherwise. -/
def parse_identifier (filename : Str) : Option Str :=
  let base := basename filename
  if '_' ∉ base then none
  else
    let identifier := base.takeWhile (fun c => c ≠ '_')
    if identifier.length ≠ 10 then none
    else if (identifier.drop 6).head? ≠ some '-' then none
    else
      let pre := identifier.take 2
      let series := (identifier.drop 2).take 4
      let color := identifier.drop 7
      if pyIsAlpha pre && pyIsDigit series && pyIsDigit color then
        some identifier
      else none

example : parse_identifier "BA2449-089_front_01.jpg".toList =
    some "BA2449-089".toList := by decide
example : parse_identifier "dir/BA2449-089_side_02.png".toList =
    some "BA2449-089".toList := by decide
example : parse_identifier "thumbnail.png".toList = none := by decide
example : parse_identifier "BA244-0891_x.jpg".toList = none := by decide
example : parse_identifier "ba2449-089_x.jpg".toList =
    some "ba2449-089".toList := by decide

/-- A row of the reference dataset as `csv.DictReader` yields it: a finite
map from column name to cell value, modelled as an association list. -/
abbrev Row := List (Str × Str)

/-- First-match association-list lookup, the observable behaviour of a
Python `dict` (whose keys are unique). -/
def alookup (k : Str) : List (Str × Row) → Option Row
  | [] => none
  | p :: ps => if p.1 = k then some p.2 else alookup k ps

/-- Field access on a row, `row.get(name)`-style: first binding wins (the
rows `DictReader` builds have unique keys). -/
def rget (r : Row) (k : Str) : Option Str :=
  match r with
  | [] => none
  | p :: ps => if p.1 = k then some p.2 else rget ps k

/-- Python `dict` assignment `d[k] = v`: replace the value in place when the
key is present, otherwise append the binding at the end (insertion order is
preserved, as in Python dicts). -/
def dictInsert (m : List (Str × Row)) (k : Str) (v : Row) : List (Str × Row) :=
  if m.any (fun p => p.1 = k) then
    m.map (fun p => if p.1 = k then (k, v) else p)
  else m ++ [(k, v)]

/-- The parsed content of an existing reference CSV file: the header row
(`DictReader.fieldnames`, `[]` for an empty file) and the data rows as the
dictionaries `DictReader` yields. -/
structure CSVData where
  header : List Str
  rows : List Row
deriving DecidableEq

/-- Errors `load_model_data` raises: the re-raised `FileNotFoundError` with
its message, and the `ValueError` for missing required columns. -/
inductive LoadError where
  | fileNotFound (msg : Str)
  | missingColumns (missing : List Str)
deriving DecidableEq

/-- The required column set of `load_model_data`, listed in the sorted order
in which Python's `sorted(missing)` reports missing ones. -/
def requiredFields : List Str :=
  ["date".toList, "description".toList, "identifier".toList, "title".toList]

/-- The missing required columns of a header, in sorted order (the required
list is sorted and `filter` preserves order). -/
def missingCols (header : List Str) : List Str :=
  requiredFields.filter (fun c => c ∉ header)

/-- The message of the re-raised `FileNotFoundError`:
`Could not find '<path>'. Please create this file with product details.` -/
def notFoundMsg (csv_path : Str) : Str :=
  "Could not find ".toList ++ Char.ofNat 39 :: csv_path ++ Char.ofNat 39 ::
    ". Please create this file with product details.".toList

/-- The key under which a data row is stored: its `identifier` cell,
stripped of surrounding whitespace (`row["identifier"].strip()`). -/
def rowKeyOf (r : Row) : Str := pyStrip ((rget r "identifier".toList).getD [])

/-- Embedding of `load_model_data`: `none` models a missing file
(`FileNotFoundError`, re-raised with a remediation hint); otherwise the
required-column check runs against the header, and the data rows are folded
into a dict keyed by stripped identifier, later rows overwriting earlier
ones. -/
def load_model_data (csv_path : Str) (file : Option CSVData) :
    Except LoadError (List (Str × Row)) :=
  match file with
  | none => Except.error (LoadError.fileNotFound (notFoundMsg csv_path))
  | some d =>
    if missingCols d.header ≠ [] then
      Except.error (LoadError.missingColumns (missingCols d.header))
    else
      Except.ok (d.rows.foldl (fun m r => dictInsert m (rowKeyOf r) r) [])

/-- The allowed image extensions of `build_archive`. -/
def allowedExts : List Str :=
  [".jpg".toList, ".jpeg".toList, ".png".toList, ".webp".toList]

/-- Extension filter of `build_archive`:
`os.path.splitext(fname)[1].lower() in {...}`. -/
def imageExt (fname : Str) : Bool :=
  decide (pyLower (splitextExt fname) ∈ allowedExts)

/-- One iteration of the file loop in `build_archive`: skip non-image
extensions, unparsable names, identifiers absent from the model data, and
identifiers already logged; otherwise append the looked-up record. -/
def buildStep (md : List (Str × Row)) (acc : List (Str × Row)) (fname : Str) :
    List (Str × Row) :=
  if imageExt fname then
    match parse_identifier fname with
    | none => acc
    | some identifier =>
      match alookup identifier md with
      | none => acc
      | some v =>
        if identifier ∈ acc.map Prod.fst then acc else acc ++ [(identifier, v)]
  else acc

/-- The ordered, deduplicated entries `build_archive` accumulates over the
file names the directory walk yields, in walk order. -/
def buildEntries (md : List (Str × Row)) (files : List Str) :
    List (Str × Row) :=
  files.foldl (buildStep md) []

/-- Output column order of the report writer. -/
def fieldnames : List Str :=
  ["identifier".toList, "title".toList, "date".toList, "description".toList]

/-- One output row: `{field: details.get(field, "") for field in fieldnames}`
serialised in fieldname order, missing fields as empty strings. -/
def rowFields (details : Row) : List Str :=
  fieldnames.map (fun f => (rget details f).getD [])

/-- A field must be quoted by `csv.writer` (QUOTE_MINIMAL) iff it contains
the delimiter, the quote character, or a line-terminator character. -/
def needsQuote (f : Str) : Bool :=
  f.any (fun c => c = ',' || c = '"' || c = '\x0d' || c = '\n')

/-- Quote-escaping of `csv.writer`: double every quote character. -/
def escQuote : Str → Str
  | [] => []
  | c :: cs => if c = '"' then '"' :: '"' :: escQuote cs else c :: escQuote cs

/-- Serialisation of one CSV field under QUOTE_MINIMAL. -/
def encodeField (f : Str) : Str :=
  if needsQuote f then '"' :: (escQuote f ++ ['"']) else f

/-- Join fields with the comma delimiter. -/
def joinComma : List Str → Str
  | [] => []
  | [f] => f
  | f :: fs => f ++ ',' :: joinComma fs

/-- Serialisation of one CSV record. -/
def encodeRow (r : List Str) : Str := joinComma (r.map encodeField)

/-- Serialisation of a full CSV file: each record followed by the default
`\r\n` line terminator. -/
def csvEncode : List (List Str) → Str
  | [] => []
  | r :: rs => encodeRow r ++ '\x0d' :: '\n' :: csvEncode rs

/-- The character content `build_archive` writes to the output file: the
fixed header row, then one row per archive entry in order. -/
def archiveCSV (entries : List (Str × Row)) : Str :=
  csvEncode (fieldnames :: entries.map (fun p => rowFields p.2))

/-- Observable outcome of `build_archive`: either the zero-match message is
printed and no file is written, or the output file is written with the
given content and the success message reports the entry count. -/
inductive BuildResult where
  | noMatches
  | wrote (csv : Str) (count : Nat)
deriving DecidableEq

/-- Embedding of `build_archive` over the list of file names the walk of
`images_dir` yields: accumulate entries, then either report zero matches
(writing nothing) or write the CSV content. -/
def build_archive (md : List (Str × Row)) (files : List Str) : BuildResult :=
  let entries := buildEntries md files
  if entries.isEmpty then BuildResult.noMatches
  else BuildResult.wrote (archiveCSV entries) entries.length

/-- Observable outcome of `main`: unrecognized command (clean exit, nothing
loaded or written), a loader error propagating out, or a completed build. -/
inductive RunResult where
  | unknown
  | loadError (e : LoadError)
  | completed (b : BuildResult)
deriving DecidableEq

/-- Modelled from the spec: re-reading the output CSV (section 8, property
5) — quoted-field parsing inside a CSV reader. Consumes the remainder of a
quoted field after the opening quote, a doubled quote standing for one
literal quote; returns the field content and the input after the closing
quote. -/
def parseQuoted : Str → Str × Str
  | [] => ([], [])
  | c :: cs =>
    if c = '"' then
      match cs with
      | '"' :: cs2 =>
        let p := parseQuoted cs2
        ('"' :: p.1, p.2)
      | _ => ([], cs)
    else
      let p := parseQuoted cs
      (c :: p.1, p.2)

/-- Separator characters that end an unquoted CSV field. -/
def isSep (c : Char) : Bool := c = ',' || c = '\x0d' || c = '\n'

/-- Modelled from the spec: re-reading the output CSV — unquoted-field
parsing, consuming up to the next delimiter or line terminator. -/
def parseUnquoted : Str → Str × Str
  | [] => ([], [])
  | c :: cs =>
    if isSep c then ([], c :: cs)
    else
      let p := parseUnquoted cs
      (c :: p.1, p.2)

/-- Modelled from the spec: re-reading the output CSV — one field, quoted
when it opens with the quote character. -/
def parseField : Str → Str × Str
  | [] => ([], [])
  | c :: cs => if c = '"' then parseQuoted cs else parseUnquoted (c :: cs)

/-- Drop the `\n` of a `\r\n` line terminator, if present. -/
def dropLF : Str → Str
  | '\n' :: rest => rest
  | rest => rest

theorem parseQuoted_length (cs : Str) : (parseQuoted cs).2.length ≤ cs.length := by
  induction cs using parseQuoted.induct with
  | case1 => simp [parseQuoted]
  | case2 cs2 ih =>
    simp [parseQuoted]
    omega
  | case3 cs hne =>
    match cs, hne with
    | [], _ => simp [parseQuoted]
    | c2 :: cs2, hne =>
      have hc2 : ¬ c2 = '"' := fun hc => hne cs2 (by rw [hc])
      simp [parseQuoted, hc2]
  | case4 c cs h ih =>
    rw [parseQuoted.eq_def]
    simp only [List.length_cons]
    simp [h]
    omega

theorem parseUnquoted_length (cs : Str) :
    (parseUnquoted cs).2.length ≤ cs.length := by
  induction cs with
  | nil => simp [parseUnquoted]
  | cons c cs ih =>
    rw [parseUnquoted.eq_def]
    by_cases h : isSep c
    · simp [h]
    · simp [h]
      omega

theorem parseField_length (cs : Str) : (parseField cs).2.length ≤ cs.length := by
  match cs with
  | [] => simp [parseField]
  | c :: cs =>
    rw [parseField.eq_def]
    by_cases h : c = '"'
    · simp only [h, if_pos rfl]
      exact Nat.le_trans (parseQuoted_length cs) (by simp)
    · simp only [h, if_neg, Bool.false_eq_true, if_false]
      simp [h]
      exact parseUnquoted_length (c :: cs)

/-- Modelled from the spec: re-reading the output CSV — the fields of one
record, ending at a line terminator or at end of input. -/
def parseFields (cs : Str) : List Str × Str :=
  match h : parseField cs with
  | (f, []) => ([f], [])
  | (f, c :: rest) =>
    if c = ',' then
      let q := parseFields rest
      (f :: q.1, q.2)
    else if c = '\x0d' then ([f], dropLF rest)
    else if c = '\n' then ([f], rest)
    else ([f], [])
termination_by cs.length
decreasing_by
  have hl := parseField_length cs
  rw [h] at hl
  simp at hl
  omega

theorem dropLF_length (cs : Str) : (dropLF cs).length ≤ cs.length := by
  rw [dropLF.eq_def]
  split <;> simp


theorem parseFields_eq_nil (cs f : Str) (h : parseField cs = (f, [])) :
    parseFields cs = ([f], []) := by
  rw [parseFields.eq_def]
  split <;> simp_all

theorem parseFields_eq_cons (cs f : Str) (c : Char) (rest : Str)
    (h : parseField cs = (f, c :: rest)) :
    parseFields cs =
      if c = ',' then (f :: (parseFields rest).1, (parseFields rest).2)
      else if c = '\x0d' then ([f], dropLF rest)
      else if c = '\n' then ([f], rest)
      else ([f], []) := by
  rw [parseFields.eq_def]
  split <;> simp_all

theorem parseFields_length (cs : Str) :
    (parseFields cs).2.length < cs.length ∨ (parseFields cs).2 = [] := by
  induction cs using parseFields.induct with
  | case1 x f heq =>
    rw [parseFields_eq_nil x f heq]
    right; rfl
  | case2 x f rest heq ih =>
    rw [parseFields_eq_cons x f ',' rest heq]
    have hl := parseField_length x
    rw [heq] at hl; simp at hl
    simp only [if_pos rfl]
    rcases ih with ih | ih
    · left; simp; omega
    · right; simpa using ih
  | case3 x f rest heq h =>
    rw [parseFields_eq_cons x f '\x0d' rest heq]
    have hl := parseField_length x
    rw [heq] at hl; simp at hl
    have hd := dropLF_length rest
    simp only [h, if_neg, if_pos rfl]
    left; simp; omega
  | case4 x f rest heq h hc =>
    rw [parseFields_eq_cons x f '\n' rest heq]
    have hl := parseField_length x
    rw [heq] at hl; simp at hl
    simp only [h, hc, if_neg, if_pos rfl]
    left; simp; omega
  | case5 x f c rest heq h hc hn =>
    rw [parseFields_eq_cons x f c rest heq]
    simp only [h, hc, hn, if_neg]
    right; simp

/-- Modelled from the spec: re-reading the output CSV — the list of records
of a CSV text, a bare line terminator yielding an empty record as in
Python's `csv` module. -/
def parseCSV : Str → List (List Str)
  | [] => []
  | c :: cs =>
    if c = '\x0d' then [] :: parseCSV (dropLF cs)
    else if c = '\n' then [] :: parseCSV cs
    else
      let p := parseFields (c :: cs)
      p.1 :: parseCSV p.2
termination_by cs => cs.length
decreasing_by
  · have := dropLF_length cs
    simp
    omega
  · simp
  · rcases parseFields_length (c :: cs) with h | h
    · simpa using h
    · rw [h]; simp

theorem parseCSV_nil : parseCSV [] = [] := by
  rw [parseCSV.eq_def]

theorem parseCSV_cr (cs : Str) :
    parseCSV ('\x0d' :: cs) = [] :: parseCSV (dropLF cs) := by
  rw [parseCSV.eq_def]
  simp

theorem parseCSV_lf (cs : Str) :
    parseCSV ('\n' :: cs) = [] :: parseCSV cs := by
  rw [parseCSV.eq_def]
  simp

theorem parseCSV_other (c : Char) (cs : Str) (h1 : ¬ c = '\x0d')
    (h2 : ¬ c = '\n') :
    parseCSV (c :: cs) =
      (parseFields (c :: cs)).1 :: parseCSV ((parseFields (c :: cs)).2) := by
  rw [parseCSV.eq_def]
  simp [h1, h2]

/-- Embedding of `main` (as `mainEntry`; Lean reserves the name `main`): the guard is
`args.command.strip().lower() != "log!"`; past it, the loader runs and any
of its errors halts the run before `build_archive`. -/
def mainEntry (cmd : Str) (csv_path : Str) (file : Option CSVData)
    (files : List Str) : RunResult :=
  if pyLower (pyStrip cmd) ≠ "log!".toList then RunResult.unknown
  else
    match load_model_data csv_path file with
    | Except.error e => RunResult.loadError e
    | Except.ok md => RunResult.completed (build_archive md files)


/-- Modelled from the spec (sections 3 and 4.1): the identifier shape — exactly
10 characters, the dash at index 6, two alphabetic characters, then four
digits, then three digits. -/
def identShape (cand : Str) : Bool :=
  decide (cand.length = 10) && decide ((cand.drop 6).head? = some '-') &&
    (cand.take 2).all Char.isAlpha && ((cand.drop 2).take 4).all Char.isDigit &&
    (cand.drop 7).all Char.isDigit

/-- Modelled from the spec (section 4.3): whether a walked file passes the
extension filter, parses to an identifier, and hits the reference mapping —
and if so, which identifier it contributes. -/
def acceptedId (md : List (Str × Row)) (f : Str) : Option Str :=
  if imageExt f then
    match parse_identifier f with
    | none => none
    | some identifier =>
      if (alookup identifier md).isSome then some identifier else none
  else none

/-- The stream of accepted identifiers over the walked files, in walk
order (duplicates included). -/
def acceptedIds (md : List (Str × Row)) (files : List Str) : List Str :=
  files.filterMap (acceptedId md)

/-- First-occurrence deduplication, relative to a set of already-seen
keys. -/
def dedupFirstFrom (seen : List Str) : List Str → List Str
  | [] => []
  | k :: ks =>
    if k ∈ seen then dedupFirstFrom seen ks
    else k :: dedupFirstFrom (k :: seen) ks

/-- Modelled from the spec (section 4.3, step 5/6): keep the first
occurrence of each identifier, in first-seen order. -/
def dedupFirst (l : List Str) : List Str := dedupFirstFrom [] l

/-- Reference record used by the concrete test scenarios of the spec. -/
def exRow : Row :=
  [("identifier".toList, "BA2449-089".toList),
   ("title".toList, "SB RPM Backpack".toList),
   ("date".toList, "2013-05-01".toList),
   ("description".toList, "Elephant Print pack".toList)]

/-- Reference mapping with the single key `BA2449-089`. -/
def exMd : List (Str × Row) := [("BA2449-089".toList, exRow)]

/-- Two image files sharing the identifier `BA2449-089`. -/
def exFiles : List Str :=
  ["BA2449-089_front_01.jpg".toList, "BA2449-089_side_02.jpg".toList]

example : acceptedIds exMd exFiles =
    ["BA2449-089".toList, "BA2449-089".toList] := by decide
example : buildEntries exMd exFiles = [("BA2449-089".toList, exRow)] := by
  decide

theorem buildStep_acceptedId (md : List (Str × Row)) (acc : List (Str × Row))
    (f : Str) :
    buildStep md acc f =
      match acceptedId md f with
      | none => acc
      | some k =>
        if k ∈ acc.map Prod.fst then acc
        else acc ++ [(k, (alookup k md).getD [])] := by
  unfold buildStep acceptedId
  by_cases hx : imageExt f
  · simp only [hx, if_pos rfl]
    match parse_identifier f with
    | none => rfl
    | some identifier =>
      match hv : alookup identifier md with
      | none => simp [hv]
      | some v => simp [hv]
  · simp [hx]

theorem dedupFirstFrom_congr (l : List Str) :
    ∀ s1 s2 : List Str, (∀ x, x ∈ s1 ↔ x ∈ s2) →
      dedupFirstFrom s1 l = dedupFirstFrom s2 l := by
  induction l with
  | nil => intro s1 s2 _; rfl
  | cons k ks ih =>
    intro s1 s2 h
    simp only [dedupFirstFrom]
    by_cases hk : k ∈ s1
    · rw [if_pos hk, if_pos ((h k).mp hk)]
      exact ih s1 s2 h
    · rw [if_neg hk, if_neg (fun hc => hk ((h k).mpr hc))]
      refine congrArg _ (ih _ _ fun x => ?_)
      simp [h x]

theorem buildEntries_foldl (md : List (Str × Row)) :
    ∀ (files : List Str) (acc : List (Str × Row)),
      files.foldl (buildStep md) acc =
        acc ++ (dedupFirstFrom (acc.map Prod.fst) (acceptedIds md files)).map
          (fun k => (k, (alookup k md).getD [])) := by
  intro files
  induction files with
  | nil => intro acc; simp [acceptedIds, dedupFirstFrom]
  | cons f fs ih =>
    intro acc
    rw [List.foldl_cons, buildStep_acceptedId]
    have hstream : acceptedIds md (f :: fs) =
        match acceptedId md f with
        | none => acceptedIds md fs
        | some k => k :: acceptedIds md fs := by
      simp only [acceptedIds, List.filterMap_cons]
      match acceptedId md f with
      | none => rfl
      | some k => rfl
    match hacc : acceptedId md f with
    | none =>
      rw [hstream, hacc, ih]
    | some k =>
      rw [hstream, hacc]
      dsimp only
      by_cases hk : k ∈ acc.map Prod.fst
      · rw [if_pos hk, ih, dedupFirstFrom]
        rw [if_pos hk]
      · rw [if_neg hk, ih]
        simp only [dedupFirstFrom, if_neg hk]
        rw [List.map_append, List.map_cons]
        simp only [List.map_nil, List.append_assoc, List.singleton_append]
        refine congrArg _ (congrArg _ (congrArg _ ?_))
        refine dedupFirstFrom_congr _ _ _ fun x => ?_
        simp [or_comm]

theorem dedupFirstFrom_notin_seen (l : List Str) :
    ∀ seen : List Str, ∀ x ∈ dedupFirstFrom seen l, x ∉ seen := by
  induction l with
  | nil => intro seen x hx; simp [dedupFirstFrom] at hx
  | cons k ks ih =>
    intro seen x hx
    simp only [dedupFirstFrom] at hx
    by_cases hk : k ∈ seen
    · rw [if_pos hk] at hx
      exact ih seen x hx
    · rw [if_neg hk] at hx
      rcases List.mem_cons.mp hx with h | h
      · rw [h]; exact hk
      · intro hc
        exact ih (k :: seen) x h (List.mem_cons_of_mem k hc)

theorem dedupFirstFrom_nodup (l : List Str) :
    ∀ seen : List Str, (dedupFirstFrom seen l).Nodup := by
  induction l with
  | nil => intro seen; simp [dedupFirstFrom]
  | cons k ks ih =>
    intro seen
    simp only [dedupFirstFrom]
    by_cases hk : k ∈ seen
    · rw [if_pos hk]; exact ih seen
    · rw [if_neg hk]
      refine List.nodup_cons.mpr ⟨fun hc => ?_, ih (k :: seen)⟩
      exact dedupFirstFrom_notin_seen ks (k :: seen) k hc (List.mem_cons_self k seen)

theorem dedupFirstFrom_sublist (l : List Str) :
    ∀ seen : List Str, ∀ x ∈ dedupFirstFrom seen l, x ∈ l := by
  induction l with
  | nil => intro seen x hx; simpa [dedupFirstFrom] using hx
  | cons k ks ih =>
    intro seen x hx
    simp only [dedupFirstFrom] at hx
    by_cases hk : k ∈ seen
    · rw [if_pos hk] at hx
      exact List.mem_cons_of_mem k (ih seen x hx)
    · rw [if_neg hk] at hx
      rcases List.mem_cons.mp hx with h | h
      · rw [h]; exact List.mem_cons_self k ks
      · exact List.mem_cons_of_mem k (ih (k :: seen) x h)

theorem mem_dedupFirstFrom (l : List Str) :
    ∀ seen : List Str, ∀ x ∈ l, x ∉ seen → x ∈ dedupFirstFrom seen l := by
  induction l with
  | nil => intro seen x hx; simp at hx
  | cons k ks ih =>
    intro seen x hx hs
    simp only [dedupFirstFrom]
    by_cases hk : k ∈ seen
    · rw [if_pos hk]
      rcases List.mem_cons.mp hx with h | h
      · exact absurd hk (h ▸ hs)
      · exact ih seen x h hs
    · rw [if_neg hk]
      rcases List.mem_cons.mp hx with h | h
      · rw [h]; exact List.mem_cons_self k _
      · by_cases hxk : x = k
        · rw [hxk]; exact List.mem_cons_self k _
        · refine List.mem_cons_of_mem k (ih (k :: seen) x h ?_)
          simp [hxk, hs]

theorem mem_acceptedIds_lookup (md : List (Str × Row)) (files : List Str)
    (k : Str) (h : k ∈ acceptedIds md files) : (alookup k md).isSome := by
  rcases List.mem_filterMap.mp h with ⟨f, _, hf⟩
  unfold acceptedId at hf
  by_cases hx : imageExt f
  · rw [if_pos hx] at hf
    match hp : parse_identifier f with
    | none => rw [hp] at hf; exact absurd hf (by simp)
    | some identifier =>
      rw [hp] at hf
      dsimp only at hf
      by_cases hs : (alookup identifier md).isSome
      · rw [if_pos hs] at hf
        injection hf with hf
        rw [← hf]; exact hs
      · rw [if_neg hs] at hf; exact absurd hf (by simp)
  · rw [if_neg hx] at hf; exact absurd hf (by simp)

theorem buildEntries_closed (md : List (Str × Row)) (files : List Str) :
    buildEntries md files =
      (dedupFirst (acceptedIds md files)).map
        (fun k => (k, (alookup k md).getD [])) := by
  unfold buildEntries dedupFirst
  rw [buildEntries_foldl md files []]
  simp

/-- C3: for every run of the Archive Builder over any directory tree and any
reference mapping, the result set contains at most one entry per Identifier
(the keys are nodup), the keys are exactly the accepted identifiers
deduplicated in first-seen order, and each entry equals the Reference
Record the mapping assigns to its Identifier; in particular, with a mapping
containing key `BA2449-089` and a directory holding `BA2449-089_front_01.jpg`
and `BA2449-089_side_02.jpg`, exactly the one entry for `BA2449-089` is
produced. -/
theorem build_archive_first_seen_dedup :
    (∀ (md : List (Str × Row)) (files : List Str),
      ((buildEntries md files).map Prod.fst).Nodup
      ∧ (buildEntries md files).map Prod.fst = dedupFirst (acceptedIds md files)
      ∧ ∀ p ∈ buildEntries md files, alookup p.1 md = some p.2)
    ∧ buildEntries exMd exFiles = [("BA2449-089".toList, exRow)] := by
  constructor
  · intro md files
    have hclosed := buildEntries_closed md files
    have hkeys : (buildEntries md files).map Prod.fst =
        dedupFirst (acceptedIds md files) := by
      rw [hclosed, List.map_map]
      simp [Function.comp_def]
    refine ⟨?_, hkeys, ?_⟩
    · rw [hkeys]
      exact dedupFirstFrom_nodup _ []
    · intro p hp
      rw [hclosed] at hp
      rcases List.mem_map.mp hp with ⟨k, hk, hpk⟩
      have hkmem : k ∈ acceptedIds md files := dedupFirstFrom_sublist _ [] k hk
      have hsome := mem_acceptedIds_lookup md files k hkmem
      rcases Option.isSome_iff_exists.mp hsome with ⟨v, hv⟩
      rw [← hpk]
      simp [hv]
  · decide

theorem buildStep_skip (md : List (Str × Row)) (acc : List (Str × Row))
    (f : Str) (h : imageExt f = false) : buildStep md acc f = acc := by
  unfold buildStep
  simp [h]

theorem buildEntries_filter_aux (md : List (Str × Row)) :
    ∀ (files : List Str) (acc : List (Str × Row)),
      files.foldl (buildStep md) acc =
        (files.filter (fun f => imageExt f)).foldl (buildStep md) acc := by
  intro files
  induction files with
  | nil => intro acc; rfl
  | cons f fs ih =>
    intro acc
    rw [List.foldl_cons, List.filter_cons]
    by_cases h : imageExt f
    · rw [if_pos h, List.foldl_cons]
      exact ih (buildStep md acc f)
    · rw [if_neg (by simpa using h),
        buildStep_skip md acc f (by simpa using h)]
      exact ih acc

/-- C7: a file whose extension, compared case-insensitively, is not one of
jpg, jpeg, png, webp never contributes to the result set regardless of its
filename shape — the entries over any walk equal the entries over the walk
restricted to allowed extensions; in particular a `.txt` file whose name
parses to a catalogued identifier produces no entry. -/
theorem build_archive_extension_filter :
    (∀ (md : List (Str × Row)) (files : List Str),
      buildEntries md files =
        buildEntries md (files.filter (fun f => imageExt f)))
    ∧ buildEntries exMd ["BA2449-089_front_01.txt".toList] = [] := by
  constructor
  · intro md files
    exact buildEntries_filter_aux md files []
  · decide

/-- C8: an empty result set is not an error — `build_archive` prints the
zero-match message and returns without writing the output file. -/
theorem build_archive_empty_informational (md : List (Str × Row))
    (files : List Str) (h : buildEntries md files = []) :
    build_archive md files = BuildResult.noMatches := by
  unfold build_archive
  rw [h]
  rfl

/-- Witness for C8 at the spec's scenario: a directory whose files match no
entry of the reference mapping. -/
theorem build_archive_empty_informational_witness :
    build_archive [] ["BA2449-089_front_01.jpg".toList] =
      BuildResult.noMatches :=
  build_archive_empty_informational [] ["BA2449-089_front_01.jpg".toList]
    (by decide)

/-- C10: when the images directory does not exist or cannot be listed,
`os.walk` (run with its default `onerror=None`) yields no files at all; the
walk is modelled as the empty file list, over which `build_archive` builds
no entries, reports zero matches, and writes nothing. -/
theorem build_archive_missing_dir_safe (md : List (Str × Row)) :
    buildEntries md [] = [] ∧ build_archive md [] = BuildResult.noMatches :=
  ⟨rfl, rfl⟩

theorem alookup_map_ne (m : List (Str × Row)) (k k' : Str) (v : Row)
    (h : ¬ k' = k) :
    alookup k' (m.map (fun p => if p.1 = k then (k, v) else p)) =
      alookup k' m := by
  induction m with
  | nil => rfl
  | cons p ps ih =>
    simp only [List.map_cons, alookup]
    by_cases hp : p.1 = k
    · have hk2 : ¬ k = k' := fun hc => h hc.symm
      have hp2 : ¬ p.1 = k' := fun hc => h (hc.symm.trans hp)
      simp [hp, hk2, hp2, ih]
    · by_cases hpk : p.1 = k' <;> simp [hp, hpk, ih, h]

theorem alookup_map_self (m : List (Str × Row)) (k : Str) (v : Row)
    (hany : ∃ p ∈ m, p.1 = k) :
    alookup k (m.map (fun p => if p.1 = k then (k, v) else p)) = some v := by
  induction m with
  | nil => simp at hany
  | cons p ps ih =>
    simp only [List.map_cons, alookup]
    by_cases hp : p.1 = k
    · simp [hp, alookup]
    · rw [if_neg hp, if_neg hp]
      apply ih
      rcases hany with ⟨q, hq, hqk⟩
      rcases List.mem_cons.mp hq with h | h
      · exact absurd (h ▸ hqk) hp
      · exact ⟨q, h, hqk⟩

theorem alookup_append_single (m : List (Str × Row)) (k k' : Str) (v : Row) :
    alookup k' (m ++ [(k, v)]) =
      if k' = k then (alookup k' m).or (some v) else alookup k' m := by
  induction m with
  | nil =>
    simp only [List.nil_append, alookup]
    by_cases hk : k = k'
    · rw [if_pos hk, if_pos hk.symm]
      rfl
    · rw [if_neg hk, if_neg (fun hc : k' = k => hk hc.symm)]
  | cons p ps ih =>
    simp only [List.cons_append, alookup]
    by_cases hp : p.1 = k'
    · rw [if_pos hp, if_pos hp]
      by_cases hk : k' = k
      · rw [if_pos hk]; rfl
      · rw [if_neg hk]
    · rw [if_neg hp, if_neg hp]
      exact ih

theorem alookup_dictInsert (m : List (Str × Row)) (k k' : Str) (v : Row) :
    alookup k' (dictInsert m k v) =
      if k' = k then some v else alookup k' m := by
  unfold dictInsert
  by_cases hany : ∃ p ∈ m, p.1 = k
  · rw [if_pos (by simpa using hany)]
    by_cases hk : k' = k
    · rw [if_pos hk, hk]
      exact alookup_map_self m k v hany
    · rw [if_neg hk]
      exact alookup_map_ne m k k' v hk
  · rw [if_neg (by simpa using hany), alookup_append_single m k k' v]
    by_cases hk : k' = k
    · rw [if_pos hk, if_pos hk]
      have : alookup k' m = none := by
        subst hk
        induction m with
        | nil => rfl
        | cons p ps ih =>
          simp only [alookup]
          rw [if_neg (fun hc => hany ⟨p, List.mem_cons_self p ps, hc⟩)]
          exact ih (fun ⟨q, hq, hqk⟩ => hany ⟨q, List.mem_cons_of_mem p hq, hqk⟩)
      rw [this]
      simp
    · rw [if_neg hk, if_neg hk]

theorem getLast?_cons_or (a : Row) (l : List Row) :
    (a :: l).getLast? = l.getLast?.or (some a) := by
  match l with
  | [] => simp
  | b :: bs =>
    rw [List.getLast?_cons_cons]
    have hs : (b :: bs).getLast?.isSome := by
      rw [List.getLast?_isSome]
      simp
    rcases Option.isSome_iff_exists.mp hs with ⟨x, hx⟩
    rw [hx]
    rfl

theorem alookup_loadFold (rows : List Row) :
    ∀ (m : List (Str × Row)) (k : Str),
      alookup k (rows.foldl (fun m r => dictInsert m (rowKeyOf r) r) m) =
        ((rows.filter (fun r => rowKeyOf r = k)).getLast?).or (alookup k m) := by
  induction rows with
  | nil => intro m k; simp
  | cons r rs ih =>
    intro m k
    rw [List.foldl_cons, ih, List.filter_cons]
    by_cases hr : rowKeyOf r = k
    · rw [if_pos (by simpa using hr), alookup_dictInsert,
        if_pos hr.symm, getLast?_cons_or, Option.or_assoc]
      rfl
    · rw [if_neg (by simpa using hr), alookup_dictInsert,
        if_neg (fun hc : k = rowKeyOf r => hr hc.symm)]

/-- C4: `load_model_data` keys each data row by its identifier cell trimmed
of surrounding whitespace and, given that the required columns are present,
succeeds with a mapping in which a key's value is the last row read whose
trimmed identifier equals that key (last-write-wins, no error on
duplicates). -/
theorem load_model_data_last_write_wins (csv_path : Str) (hdr : List Str)
    (rows : List Row) (k : Str) (hreq : ∀ c ∈ requiredFields, c ∈ hdr) :
    ∃ m, load_model_data csv_path (some ⟨hdr, rows⟩) = Except.ok m
      ∧ alookup k m = (rows.filter (fun r => rowKeyOf r = k)).getLast? := by
  have hm : missingCols hdr = [] := by
    unfold missingCols
    rw [List.filter_eq_nil_iff]
    intro c hc
    simpa using hreq c hc
  refine ⟨rows.foldl (fun m r => dictInsert m (rowKeyOf r) r) [], ?_, ?_⟩
  · unfold load_model_data
    simp [hm]
  · rw [alookup_loadFold]
    simp [alookup]

/-- Two data rows sharing the trimmed identifier `BA2449-089` (the second
with surrounding whitespace in the cell) but different titles. -/
def dupRowA : Row :=
  [("identifier".toList, "BA2449-089".toList),
   ("title".toList, "First title".toList)]

/-- Later duplicate row; its title must win. -/
def dupRowB : Row :=
  [("identifier".toList, " BA2449-089 ".toList),
   ("title".toList, "Second title".toList)]

/-- Witness for C4 at the spec's scenario: two rows with the same trimmed
identifier and different titles; the loaded mapping holds the later row. -/
theorem load_model_data_last_write_wins_witness :
    ∃ m, load_model_data "model_data.csv".toList
        (some ⟨requiredFields, [dupRowA, dupRowB]⟩) = Except.ok m
      ∧ alookup "BA2449-089".toList m =
        ([dupRowA, dupRowB].filter
          (fun r => rowKeyOf r = "BA2449-089".toList)).getLast? :=
  load_model_data_last_write_wins "model_data.csv".toList requiredFields
    [dupRowA, dupRowB] "BA2449-089".toList (by decide)

example : ([dupRowA, dupRowB].filter
    (fun r => rowKeyOf r = "BA2449-089".toList)).getLast? = some dupRowB := by
  decide

example : load_model_data "model_data.csv".toList
    (some ⟨requiredFields, [dupRowA, dupRowB]⟩) =
      Except.ok [("BA2449-089".toList, dupRowB)] := by rfl

/-- C5: the Reference Loader fails with a not-found error carrying the
remediation hint when the dataset file does not exist, and fails with a
schema error naming the missing columns — the error carries exactly the
required columns of {identifier, title, date, description} absent from the
header — whenever any required column is absent; in both cases `main`
halts at the loader, before any output file is written. -/
theorem load_model_data_errors (p : Str) (hdr : List Str) (rows : List Row)
    (files : List Str) (habs : ∃ c ∈ requiredFields, c ∉ hdr) :
    (mainEntry "log!".toList p none files =
        RunResult.loadError (LoadError.fileNotFound (notFoundMsg p))
      ∧ List.IsSuffix
          "Please create this file with product details.".toList
          (notFoundMsg p))
    ∧ ∃ ms, load_model_data p (some ⟨hdr, rows⟩) =
          Except.error (LoadError.missingColumns ms)
        ∧ (∀ c, c ∈ ms ↔ (c ∈ requiredFields ∧ c ∉ hdr))
        ∧ mainEntry "log!".toList p (some ⟨hdr, rows⟩) files =
            RunResult.loadError (LoadError.missingColumns ms) := by
  have htrig : ¬ pyLower (pyStrip "log!".toList) ≠ "log!".toList := by decide
  have hne : missingCols hdr ≠ [] := by
    rcases habs with ⟨c, hcr, hch⟩
    intro hnil
    have hmem : c ∈ missingCols hdr := by
      unfold missingCols
      apply List.mem_filter.mpr
      exact ⟨hcr, by simpa using hch⟩
    rw [hnil] at hmem
    simp at hmem
  refine ⟨⟨?_, ?_⟩, missingCols hdr, ?_, ?_, ?_⟩
  · unfold mainEntry
    rw [if_neg htrig]
    rfl
  · refine ⟨"Could not find ".toList ++
      Char.ofNat 39 :: p ++ [Char.ofNat 39, '.', ' '], ?_⟩
    unfold notFoundMsg
    have hsplit : (". Please create this file with product details.".toList :
        Str) = '.' :: ' ' ::
          "Please create this file with product details.".toList := by rfl
    rw [hsplit]
    simp
  · unfold load_model_data
    dsimp only
    rw [if_pos hne]
  · intro c
    unfold missingCols
    simp [List.mem_filter]
  · unfold mainEntry
    rw [if_neg htrig]
    unfold load_model_data
    dsimp only
    rw [if_pos hne]

/-- Witness for C5 at two concrete datasets: the spec scenario whose header
lacks only the `description` column, and a header lacking only the `title`
column. -/
theorem load_model_data_errors_witness :
    ((mainEntry "log!".toList "model_data.csv".toList none [] =
        RunResult.loadError
          (LoadError.fileNotFound (notFoundMsg "model_data.csv".toList))
      ∧ List.IsSuffix
          "Please create this file with product details.".toList
          (notFoundMsg "model_data.csv".toList))
    ∧ ∃ ms, load_model_data "model_data.csv".toList
          (some ⟨["identifier".toList, "title".toList, "date".toList], []⟩) =
          Except.error (LoadError.missingColumns ms)
        ∧ (∀ c, c ∈ ms ↔ (c ∈ requiredFields ∧
            c ∉ ["identifier".toList, "title".toList, "date".toList]))
        ∧ mainEntry "log!".toList "model_data.csv".toList
            (some ⟨["identifier".toList, "title".toList, "date".toList], []⟩)
            [] = RunResult.loadError (LoadError.missingColumns ms))
    ∧ ((mainEntry "log!".toList "model_data.csv".toList none [] =
        RunResult.loadError
          (LoadError.fileNotFound (notFoundMsg "model_data.csv".toList))
      ∧ List.IsSuffix
          "Please create this file with product details.".toList
          (notFoundMsg "model_data.csv".toList))
    ∧ ∃ ms, load_model_data "model_data.csv".toList
          (some ⟨["identifier".toList, "date".toList,
            "description".toList], []⟩) =
          Except.error (LoadError.missingColumns ms)
        ∧ (∀ c, c ∈ ms ↔ (c ∈ requiredFields ∧
            c ∉ ["identifier".toList, "date".toList, "description".toList]))
        ∧ mainEntry "log!".toList "model_data.csv".toList
            (some ⟨["identifier".toList, "date".toList,
              "description".toList], []⟩)
            [] = RunResult.loadError (LoadError.missingColumns ms)) :=
  ⟨load_model_data_errors "model_data.csv".toList
    ["identifier".toList, "title".toList, "date".toList] [] [] (by decide),
   load_model_data_errors "model_data.csv".toList
    ["identifier".toList, "date".toList, "description".toList] [] []
    (by decide)⟩

example : load_model_data "model_data.csv".toList
    (some ⟨["identifier".toList, "date".toList, "description".toList],
      []⟩) =
      Except.error (LoadError.missingColumns ["title".toList]) := by rfl

example : load_model_data "model_data.csv".toList
    (some ⟨["identifier".toList, "title".toList, "date".toList], []⟩) =
      Except.error (LoadError.missingColumns ["description".toList]) := by rfl

/-- Counterexample to C2 as stated: the command `LOG!` is not equal to the
trigger literal `log!`, yet the entry point does not take the
unrecognized-command exit — it loads the dataset (observable through the
file-not-found failure when the dataset is absent) and runs the pipeline to
completion, because the code compares `command.strip().lower()` with the
trigger. -/
theorem mainEntry_trigger_cex :
    ¬ "LOG!".toList = "log!".toList
    ∧ mainEntry "LOG!".toList "model_data.csv".toList
        (some ⟨requiredFields, []⟩) [] ≠ RunResult.unknown
    ∧ mainEntry "LOG!".toList "model_data.csv".toList
        (some ⟨requiredFields, []⟩) [] =
        RunResult.completed BuildResult.noMatches
    ∧ mainEntry "LOG!".toList "model_data.csv".toList none [] =
        RunResult.loadError
          (LoadError.fileNotFound (notFoundMsg "model_data.csv".toList)) := by
  refine ⟨by decide, by decide, by decide, by decide⟩

/-- C2 (amended): the Command Entry Point takes the unrecognized-command
exit — printing the message and doing nothing else — exactly when the
supplied command, stripped of surrounding whitespace and lowercased, is not
the trigger literal `log!`; otherwise the pipeline runs. -/
theorem mainEntry_trigger_normalized (cmd p : Str) (file : Option CSVData)
    (files : List Str) :
    mainEntry cmd p file files = RunResult.unknown ↔
      pyLower (pyStrip cmd) ≠ "log!".toList := by
  unfold mainEntry
  by_cases h : pyLower (pyStrip cmd) ≠ "log!".toList
  · rw [if_pos h]
    exact ⟨fun _ => h, fun _ => rfl⟩
  · rw [if_neg h]
    have hne : (match load_model_data p file with
        | Except.error e => RunResult.loadError e
        | Except.ok md => RunResult.completed (build_archive md files)) ≠
          RunResult.unknown := by
      rcases load_model_data p file with e | md <;> simp
    exact ⟨fun hc => absurd hc hne, fun hc => absurd hc h⟩

theorem parse_identifier_char (filename : Str) :
    parse_identifier filename =
      (if '_' ∈ basename filename ∧
          identShape ((basename filename).takeWhile (fun c => c ≠ '_')) = true
       then some ((basename filename).takeWhile (fun c => c ≠ '_'))
       else none) := by
  simp only [parse_identifier, identShape]
  set base := basename filename with hbase
  set cand := base.takeWhile (fun c => c ≠ '_') with hcand
  by_cases h1 : '_' ∈ base
  · rw [if_neg (not_not_intro h1)]
    by_cases h2 : cand.length = 10
    · by_cases h3 : (cand.drop 6).head? = some '-'
      · have l1 : (cand.take 2).length = 2 := by
          rw [List.length_take, h2]
          omega
        have l2 : ((cand.drop 2).take 4).length = 4 := by
          rw [List.length_take, List.length_drop, h2]
          omega
        have l3 : (cand.drop 7).length = 3 := by
          rw [List.length_drop, h2]
        have e1 : (cand.take 2).isEmpty = false := by
          cases hc : cand.take 2
          · rw [hc] at l1
            exact absurd l1 (by decide)
          · rfl
        have e2 : ((cand.drop 2).take 4).isEmpty = false := by
          cases hc : (cand.drop 2).take 4
          · rw [hc] at l2
            exact absurd l2 (by decide)
          · rfl
        have e3 : (cand.drop 7).isEmpty = false := by
          cases hc : cand.drop 7
          · rw [hc] at l3
            exact absurd l3 (by decide)
          · rfl
        rw [if_neg (fun hc => hc h2), if_neg (fun hc => hc h3)]
        have hrhs : ('_' ∈ base ∧
            (decide (cand.length = 10) &&
              decide ((cand.drop 6).head? = some '-') &&
              (cand.take 2).all Char.isAlpha &&
              ((cand.drop 2).take 4).all Char.isDigit &&
              (cand.drop 7).all Char.isDigit) = true) ↔
            (pyIsAlpha (cand.take 2) &&
              pyIsDigit ((cand.drop 2).take 4) &&
              pyIsDigit (cand.drop 7)) = true := by
          simp only [pyIsAlpha, pyIsDigit, e1, e2, e3, Bool.not_false,
            Bool.true_and, Bool.and_eq_true, decide_eq_true_eq]
          constructor
          · intro hc
            tauto
          · intro hc
            tauto
        rw [if_congr hrhs rfl rfl]
      · rw [if_neg (fun hc => hc h2), if_pos h3]
        rw [if_neg ?hneg]
        case hneg =>
          intro hc
          have h' := hc.2
          simp only [Bool.and_eq_true, decide_eq_true_eq] at h'
          tauto
    · rw [if_pos h2]
      rw [if_neg ?hneg2]
      case hneg2 =>
        intro hc
        have h' := hc.2
        simp only [Bool.and_eq_true, decide_eq_true_eq] at h'
        tauto
  · rw [if_pos h1, if_neg (fun hc => h1 hc.1)]

/-- C1: for every filename whose final path segment contains an underscore
and whose segment before the first underscore is exactly two alphabetic
characters, four digits, a dash at index 6, and three digits,
`parse_identifier` returns exactly that 10-character candidate, unchanged
and preserving its casing. -/
theorem parse_identifier_success (filename : Str)
    (a b d1 d2 d3 d4 e1 e2 e3 : Char)
    (hunder : '_' ∈ basename filename)
    (hcand : (basename filename).takeWhile (fun c => c ≠ '_') =
      [a, b, d1, d2, d3, d4, '-', e1, e2, e3])
    (ha : a.isAlpha ∧ b.isAlpha)
    (hd : d1.isDigit ∧ d2.isDigit ∧ d3.isDigit ∧ d4.isDigit)
    (he : e1.isDigit ∧ e2.isDigit ∧ e3.isDigit) :
    parse_identifier filename =
      some [a, b, d1, d2, d3, d4, '-', e1, e2, e3] := by
  rw [parse_identifier_char, hcand]
  rw [if_pos ?hc]
  case hc =>
    refine ⟨hunder, ?_⟩
    simp [identShape, ha.1, ha.2, hd.1, hd.2.1, hd.2.2.1, hd.2.2.2,
      he.1, he.2.1, he.2.2]

/-- Witness for C1 at the spec's example `BA2449-089_front_01.jpg`. -/
theorem parse_identifier_success_witness :
    parse_identifier "BA2449-089_front_01.jpg".toList =
      some ['B', 'A', '2', '4', '4', '9', '-', '0', '8', '9'] :=
  parse_identifier_success "BA2449-089_front_01.jpg".toList
    'B' 'A' '2' '4' '4' '9' '0' '8' '9'
    (by decide) (by decide) (by decide) (by decide) (by decide)

/-- C6: for every filename whose final path segment lacks an underscore, or
whose segment before the first underscore does not satisfy the
two-letter/four-digit/dash/three-digit 10-character shape,
`parse_identifier` signals no match by returning `none`. -/
theorem parse_identifier_no_match (filename : Str)
    (h : '_' ∉ basename filename ∨
      identShape ((basename filename).takeWhile (fun c => c ≠ '_')) =
        false) :
    parse_identifier filename = none := by
  rw [parse_identifier_char]
  rcases h with h | h
  · rw [if_neg (fun hc => h hc.1)]
  · rw [if_neg (fun hc => by rw [h] at hc; exact absurd hc.2 (by simp))]

/-- Witness for C6: a file without underscore and a file whose candidate
segment fails the shape (five letters before the dash). -/
theorem parse_identifier_no_match_witness :
    parse_identifier "thumbnail.png".toList = none
    ∧ parse_identifier "BA244-0891_x.jpg".toList = none :=
  ⟨parse_identifier_no_match "thumbnail.png".toList (Or.inl (by decide)),
   parse_identifier_no_match "BA244-0891_x.jpg".toList (Or.inr (by decide))⟩

theorem not_needsQuote (f : Str) (h : needsQuote f = false) :
    ∀ c ∈ f, isSep c = false ∧ ¬ c = '"' := by
  intro c hc
  unfold needsQuote at h
  rw [List.any_eq_false] at h
  have hne := h c hc
  simp only [Bool.or_eq_true, decide_eq_true_eq, not_or] at hne
  unfold isSep
  have hparts : ¬ c = ',' ∧ ¬ c = '"' ∧ ¬ c = '\x0d' ∧ ¬ c = '\n' := by
    tauto
  constructor
  · simp [hparts.1, hparts.2.2.1, hparts.2.2.2]
  · exact hparts.2.1

theorem parseQuoted_esc (f : Str) :
    ∀ rest : Str, rest.head? ≠ some '"' →
      parseQuoted (escQuote f ++ '"' :: rest) = (f, rest) := by
  induction f with
  | nil =>
    intro rest h
    simp only [escQuote, List.nil_append]
    cases rest with
    | nil => simp [parseQuoted]
    | cons r rs =>
      have hr : ¬ r = '"' := by
        intro hc
        rw [hc] at h
        exact h rfl
      simp [parseQuoted, hr]
  | cons a f ih =>
    intro rest h
    simp only [escQuote]
    by_cases hq : a = '"'
    · rw [if_pos hq]
      simp only [List.cons_append]
      simp [parseQuoted, ih rest h, hq]
    · rw [if_neg hq]
      simp only [List.cons_append]
      rw [parseQuoted.eq_def]
      simp [hq, ih rest h]

theorem parseUnquoted_app (f : Str) :
    ∀ rest : Str, (∀ c ∈ f, isSep c = false) →
      (∀ c, rest.head? = some c → isSep c = true) →
      parseUnquoted (f ++ rest) = (f, rest) := by
  induction f with
  | nil =>
    intro rest _ hr
    cases rest with
    | nil => simp [parseUnquoted]
    | cons r rs =>
      have := hr r rfl
      simp [parseUnquoted, this]
  | cons a f ih =>
    intro rest hf hr
    have ha := hf a (List.mem_cons_self a f)
    simp only [List.cons_append]
    rw [parseUnquoted.eq_def]
    simp [ha, ih rest (fun c hc => hf c (List.mem_cons_of_mem a hc)) hr]

theorem parseField_enc (f rest : Str)
    (hr : ∀ c, rest.head? = some c → isSep c = true) :
    parseField (encodeField f ++ rest) = (f, rest) := by
  unfold encodeField
  by_cases hq : needsQuote f
  · rw [if_pos hq]
    have hassoc : ('"' :: (escQuote f ++ ['"'])) ++ rest =
        '"' :: (escQuote f ++ '"' :: rest) := by simp
    rw [hassoc]
    have hh : rest.head? ≠ some '"' := by
      cases rest with
      | nil => simp
      | cons r rs =>
        intro hc
        have hs := hr r rfl
        injection hc with hc
        rw [hc] at hs
        exact absurd hs (by decide)
    rw [parseField.eq_def]
    simp only [if_pos rfl]
    exact parseQuoted_esc f rest hh
  · rw [if_neg hq]
    have hprops := not_needsQuote f (by simpa using hq)
    cases f with
    | nil =>
      simp only [List.nil_append]
      cases rest with
      | nil => simp [parseField]
      | cons r rs =>
        have hs := hr r rfl
        have hrq : ¬ r = '"' := by
          intro hc
          rw [hc] at hs
          exact absurd hs (by decide)
        simp [parseField, hrq, parseUnquoted, hs]
    | cons a f' =>
      have ha := (hprops a (List.mem_cons_self a f')).2
      simp only [List.cons_append]
      rw [parseField.eq_def]
      simp only [ha, if_false]
      exact parseUnquoted_app (a :: f') rest
        (fun c hc => (hprops c hc).1) hr

theorem parseFields_encRow (r : List Str) :
    ∀ rest : Str, r ≠ [] →
      parseFields (encodeRow r ++ '\x0d' :: '\n' :: rest) = (r, rest) := by
  induction r with
  | nil => intro rest hr; exact absurd rfl hr
  | cons f fs ih =>
    intro rest _
    cases fs with
    | nil =>
      have henc : encodeRow [f] = encodeField f := rfl
      rw [henc]
      have hfield := parseField_enc f ('\x0d' :: '\n' :: rest)
        (fun c hc => by
          injection hc with hc
          rw [← hc]
          decide)
      rw [parseFields_eq_cons _ _ _ _ hfield]
      rw [if_neg (by decide), if_pos rfl]
      rfl
    | cons f2 fs2 =>
      have henc : encodeRow (f :: f2 :: fs2) =
          encodeField f ++ ',' :: encodeRow (f2 :: fs2) := rfl
      rw [henc]
      have hassoc : (encodeField f ++ ',' :: encodeRow (f2 :: fs2)) ++
          '\x0d' :: '\n' :: rest =
          encodeField f ++
            (',' :: (encodeRow (f2 :: fs2) ++ '\x0d' :: '\n' :: rest)) := by
        simp
      rw [hassoc]
      have hfield := parseField_enc f
        (',' :: (encodeRow (f2 :: fs2) ++ '\x0d' :: '\n' :: rest))
        (fun c hc => by
          injection hc with hc
          rw [← hc]
          decide)
      rw [parseFields_eq_cons _ _ _ _ hfield, if_pos rfl,
        ih rest (by simp)]

theorem encodeRow_head (r : List Str) (hr : r ≠ []) (hne : r ≠ [[]]) :
    ∃ c cs, encodeRow r = c :: cs ∧ ¬ c = '\x0d' ∧ ¬ c = '\n' := by
  match r, hr with
  | f :: fs, _ =>
    have htail : ∃ t, encodeRow (f :: fs) = encodeField f ++ t := by
      cases fs with
      | nil => exact ⟨[], by simp [encodeRow, joinComma]⟩
      | cons f2 fs2 => exact ⟨',' :: encodeRow (f2 :: fs2), rfl⟩
    rcases htail with ⟨t, ht⟩
    by_cases hq : needsQuote f
    · refine ⟨'"', escQuote f ++ ['"'] ++ t, ?_, by decide, by decide⟩
      rw [ht]
      simp [encodeField, hq]
    · have hprops := not_needsQuote f (by simpa using hq)
      cases f with
      | nil =>
        cases fs with
        | nil => exact absurd rfl hne
        | cons f2 fs2 =>
          exact ⟨',', encodeRow (f2 :: fs2), rfl, by decide, by decide⟩
      | cons a f' =>
        have ha := hprops a (List.mem_cons_self a f')
        have hsep : isSep a = false := ha.1
        have hcr : ¬ a = '\x0d' := by
          intro hc
          rw [hc] at hsep
          exact absurd hsep (by decide)
        have hlf : ¬ a = '\n' := by
          intro hc
          rw [hc] at hsep
          exact absurd hsep (by decide)
        refine ⟨a, f' ++ t, ?_, hcr, hlf⟩
        rw [ht]
        simp [encodeField, hq]

theorem parseCSV_enc (rows : List (List Str))
    (h : ∀ r ∈ rows, r ≠ [[]]) : parseCSV (csvEncode rows) = rows := by
  induction rows with
  | nil =>
    have henc : csvEncode [] = ([] : Str) := rfl
    rw [henc, parseCSV_nil]
  | cons r rs ih =>
    simp only [csvEncode]
    by_cases hr : r = []
    · subst hr
      have henc : encodeRow [] = [] := rfl
      rw [henc, List.nil_append, parseCSV_cr]
      have hdrop : dropLF ('\n' :: csvEncode rs) = csvEncode rs := rfl
      rw [hdrop, ih (fun q hq => h q (List.mem_cons_of_mem [] hq))]
    · obtain ⟨c, cs, hc, h1, h2⟩ :=
        encodeRow_head r hr (h r (List.mem_cons_self r rs))
      have hinput : encodeRow r ++ '\x0d' :: '\n' :: csvEncode rs =
          c :: (cs ++ '\x0d' :: '\n' :: csvEncode rs) := by
        rw [hc]
        simp
      rw [hinput, parseCSV_other c _ h1 h2, ← hinput,
        parseFields_encRow r (csvEncode rs) hr]
      dsimp only
      rw [ih (fun q hq => h q (List.mem_cons_of_mem r hq))]

/-- C9: for every non-empty result set, writing it with the report writer
(fixed header, one row per entry in order, missing fields as empty strings,
minimal quoting, `\r\n` terminators) and re-reading the produced CSV text
yields exactly the header row followed by one data row per entry, in the
same order, with identifier, title, date and description field values
identical to what was written. -/
theorem report_roundtrip (entries : List (Str × Row)) (h : entries ≠ []) :
    parseCSV (archiveCSV entries) =
      fieldnames :: entries.map (fun p => rowFields p.2) := by
  have _hne := h
  unfold archiveCSV
  apply parseCSV_enc
  intro r hrr
  rcases List.mem_cons.mp hrr with hh | hh
  · rw [hh]
    decide
  · rcases List.mem_map.mp hh with ⟨p, _, hp⟩
    rw [← hp]
    intro hc
    have hlen : (rowFields p.2).length = 4 := by
      simp [rowFields, fieldnames]
    rw [hc] at hlen
    exact absurd hlen (by decide)

/-- Archive entry whose title contains the delimiter and quote characters
and whose description is absent, exercising quoting and the empty-string
default. -/
def trickyRow : Row :=
  [("identifier".toList, "BA2449-089".toList),
   ("title".toList, "Pack, \"Elephant\" edition".toList),
   ("date".toList, "2013-05-01".toList)]

/-- Witness for C9 at a concrete one-entry result set with a quoted,
comma-containing field and a missing description. -/
theorem report_roundtrip_witness :
    parseCSV (archiveCSV [("BA2449-089".toList, trickyRow)]) =
      fieldnames ::
        [("BA2449-089".toList, trickyRow)].map (fun p => rowFields p.2) :=
  report_roundtrip [("BA2449-089".toList, trickyRow)] (by decide)

example : archiveCSV [("BA2449-089".toList, trickyRow)] =
    ("identifier,title,date,description\x0d\nBA2449-089," ++
      "\"Pack, \"\"Elephant\"\" edition\",2013-05-01,\x0d\n").toList := by
  decide

example : parseCSV (archiveCSV [("BA2449-089".toList, trickyRow)]) =
    [["identifier".toList, "title".toList, "date".toList,
      "description".toList],
     ["BA2449-089".toList, "Pack, \"Elephant\" edition".toList,
      "2013-05-01".toList, []]] := by
  have h := parseCSV_enc
    (fieldnames ::
      [("BA2449-089".toList, trickyRow)].map (fun p => rowFields p.2))
    (by decide)
  rw [show archiveCSV [("BA2449-089".toList, trickyRow)] =
      csvEncode (fieldnames ::
        [("BA2449-089".toList, trickyRow)].map (fun p => rowFields p.2))
    from rfl, h]
  decide
